import Mathlib

/-!
Verification development for the page-selection and markdown-cleaning
utility layer of the mcp-mistral-ocr server.

The embedded functions mirror the TypeScript source (`parsePageSpec`,
`markdownToText`, `cleanMarkdownContent` and the `mistral_ocr_clean_markdown`
handler arithmetic).  JavaScript numbers coming out of `parseInt` are
modelled as `Option Int`, where `none` stands for `NaN`; every numeric
comparison on them follows the JavaScript rule that any comparison with
`NaN` is false.  Strings are processed through their character lists so
that the JavaScript `split` / `join` / `trim` semantics are explicit.
-/

set_option maxRecDepth 8000

namespace MistralOcr

/-- JavaScript number produced by `parseInt`: `none` is `NaN`. -/
abbrev JSNum := Option Int

/-- Whitespace characters removed by JavaScript `String.prototype.trim`
(ASCII portion; the repository only ever feeds ASCII whitespace). -/
def isWsChar (c : Char) : Bool :=
  c = ' ' || c = '\t' || c = '\n' || c = '\r' || c = '\x0b' || c = '\x0c'

/-- Character-level model of JavaScript `trim`: drop whitespace from both ends. -/
def trimChars (cs : List Char) : List Char :=
  ((cs.dropWhile isWsChar).reverse.dropWhile isWsChar).reverse

/-- JavaScript `s.trim()`. -/
def jsTrim (s : String) : String := String.mk (trimChars s.data)

/-- JavaScript `String.prototype.split` with a single-character separator:
`"".split(sep) = [""]`, separators at the ends produce empty fields. -/
def splitCharList (sep : Char) : List Char → List (List Char)
  | [] => [[]]
  | c :: rest =>
    if c = sep then [] :: splitCharList sep rest
    else
      match splitCharList sep rest with
      | [] => [[c]]
      | h :: t => (c :: h) :: t

/-- JavaScript `Array.prototype.join("\n")` at the character level. -/
def joinNl : List (List Char) → List Char
  | [] => []
  | [l] => l
  | l :: ls => l ++ '\n' :: joinNl ls

/-- `content.split("\n")` as a list of strings. -/
def splitLines (s : String) : List String :=
  (splitCharList '\n' s.data).map String.mk

/-- `lines.join("\n")` as a string. -/
def joinLines (ls : List String) : String :=
  String.mk (joinNl (ls.map String.data))

/-- Accumulate the base-10 value of a digit run. -/
def digitsVal (ds : List Char) : Nat :=
  ds.foldl (fun acc c => acc * 10 + (c.toNat - 48)) 0

/-- JavaScript `parseInt(s, 10)`: skip leading whitespace, optional sign,
then the longest leading digit run; `NaN` (`none`) when no digit follows. -/
def parseIntJS (s : String) : JSNum :=
  match s.data.dropWhile isWsChar with
  | [] => none
  | c :: rest =>
    if c = '-' then
      (match rest.takeWhile Char.isDigit with
       | [] => none
       | ds => some (-(digitsVal ds : Int)))
    else if c = '+' then
      (match rest.takeWhile Char.isDigit with
       | [] => none
       | ds => some (digitsVal ds))
    else
      match (c :: rest).takeWhile Char.isDigit with
      | [] => none
      | ds => some (digitsVal ds)

/-- JavaScript `<` on numbers: false whenever an operand is `NaN`. -/
def jsLt : JSNum → JSNum → Bool
  | some a, some b => decide (a < b)
  | _, _ => false

/-- JavaScript `>` on numbers: false whenever an operand is `NaN`. -/
def jsGt : JSNum → JSNum → Bool
  | some a, some b => decide (b < a)
  | _, _ => false

/-- Stringification of a JavaScript number inside a template literal. -/
def jsNumToString : JSNum → String
  | none => "NaN"
  | some n => toString n

/-- `Set.prototype.add` on a JavaScript `Set<number>` kept in insertion
order (SameValueZero equality, under which `NaN` equals `NaN`). -/
def addPage (pages : List JSNum) (x : JSNum) : List JSNum :=
  if pages.contains x then pages else pages ++ [x]

/-- The pages visited by `for (let i = start; i <= end; i++)`. -/
def pageRange (s e : Int) : List Int :=
  (List.range (e + 1 - s).toNat).map (fun k => s + k)

/-- JavaScript `s.startsWith("-")`: the first character is `-`. -/
def startsWithDash (s : String) : Bool :=
  match s.data with
  | '-' :: _ => true
  | _ => false

/-- One iteration of the token loop of `parsePageSpec`
(src/unnamed/part_000 lines 112-144): trims the token, handles the range
branch when it contains `-`, otherwise the single-page branch. -/
def addPart (pages : List JSNum) (part : String) : Except String (List JSNum) :=
  let trimmed := jsTrim part
  if trimmed.data.contains '-' then
    if startsWithDash trimmed then
      Except.error ("Page numbers must be positive (got \x27" ++ trimmed ++ "\x27)")
    else
      match (splitCharList '-' trimmed.data).map String.mk with
      | [p0, p1] =>
        let start := parseIntJS (jsTrim p0)
        let e := parseIntJS (jsTrim p1)
        if jsLt start (some 1) || jsLt e (some 1) then
          Except.error ("Page numbers must be positive (got " ++
            jsNumToString start ++ "-" ++ jsNumToString e ++ ")")
        else if jsGt start e then
          Except.error ("Invalid page range: " ++ jsNumToString start ++ "-" ++
            jsNumToString e ++ " (start must be <= end)")
        else
          match start, e with
          | some s, some en =>
            Except.ok ((pageRange s en).foldl (fun acc i => addPage acc (some i)) pages)
          | _, _ => Except.ok pages
      | _ =>
        Except.error ("Invalid page range format: \x27" ++ trimmed ++
          "\x27 (expected format: \x2711-20\x27)")
  else
    let pageNum := parseIntJS trimmed
    if jsLt pageNum (some 1) then
      Except.error ("Page numbers must be positive (got " ++ jsNumToString pageNum ++ ")")
    else
      Except.ok (addPage pages pageNum)

/-- `parsePageSpec` (src/unnamed/part_000 lines 108-147, src/src/worker.ts
lines 81-120): split on `,`, process every token, return the page set
(insertion-ordered, duplicates collapsed). -/
def parsePageSpec (pageSpec : String) : Except String (List JSNum) :=
  ((splitCharList ',' pageSpec.data).map String.mk).foldlM addPart []

/-- Regex test `/^Page \d+/i` of `cleanMarkdownContent`
(src/unnamed/part_000 line 182): the line starts, case-insensitively,
with `Page ` followed by at least one digit. -/
def pageMarkerTest (t : String) : Bool :=
  match t.data with
  | p :: a :: g :: e :: sp :: d :: _ =>
    p.toLower = 'p' && a.toLower = 'a' && g.toLower = 'g' && e.toLower = 'e' &&
      sp = ' ' && d.isDigit
  | _ => false

/-- Regex test `/^\[\d+\]/` (line 183): the line starts with `[`, one or
more digits, then `]`. -/
def footnoteTest (t : String) : Bool :=
  match t.data with
  | '[' :: rest =>
    let ds := rest.takeWhile Char.isDigit
    !ds.isEmpty &&
      (match rest.drop ds.length with
       | ']' :: _ => true
       | _ => false)
  | _ => false

/-- Does `needle` occur as a contiguous substring of the haystack? -/
def hasSubstr (needle : List Char) : List Char → Bool
  | [] => needle.isEmpty
  | c :: rest => needle.isPrefixOf (c :: rest) || hasSubstr needle rest

/-- Regex test `/doi:/i` (line 184): the line contains `doi:` anywhere,
case-insensitively. -/
def doiTest (t : String) : Bool :=
  hasSubstr "doi:".data (t.data.map Char.toLower)

/-- Regex test `/^\d+$/` (line 185): the whole line is one or more digits. -/
def digitsOnlyTest (t : String) : Bool :=
  !t.data.isEmpty && t.data.all Char.isDigit

/-- A trimmed line is protected from removal when any of the four regex
tests of src/unnamed/part_000 lines 181-186 matches (the code adds the
line to `repetitiveLines` only when all four tests fail). -/
def isProtected (t : String) : Bool :=
  pageMarkerTest t || footnoteTest t || doiTest t || digitsOnlyTest t

/-- Value of `lineCounts.get(t)` (src/unnamed/part_000 lines 166-174) for a
non-empty trimmed form `t`: the number of lines whose trim equals `t`. -/
def lineCount (lines : List String) (t : String) : Nat :=
  (lines.filter (fun l => jsTrim l == t)).length

/-- Membership of a non-empty occurring trimmed form in `repetitiveLines`
(src/unnamed/part_000 lines 176-190): count at least 3 and not protected. -/
def isRepetitive (lines : List String) (t : String) : Bool :=
  decide (3 ≤ lineCount lines t) && !isProtected t

/-- The filter predicate of src/unnamed/part_000 lines 193-196: keep a line
when its trim is empty or its trim is not a repetitive form.  (For a line
of the document with a non-empty trim, `repetitiveLines.has(trimmed)`
coincides with `isRepetitive`, since the trim occurs and so is a key of
`lineCounts`.) -/
def keepLine (lines : List String) (line : String) : Bool :=
  jsTrim line == "" || !isRepetitive lines (jsTrim line)

/-- The surviving lines (`cleanedLines`, src/unnamed/part_000 lines 193-196). -/
def cleanLines (lines : List String) : List String :=
  lines.filter (keepLine lines)

/-- `cleanMarkdownContent` (src/unnamed/part_000 lines 162-200,
src/src/worker.ts lines 135-167): split on newlines, drop every line whose
trimmed form repeats at least 3 times and is not protected, re-join, and
return the fixed method label. -/
def cleanMarkdownContent (content : String) : String × String :=
  (joinLines (cleanLines (splitLines content)), "lightweight inline deduplication")

/-- Lazy `.*?\]\(` of the image regex `/!\[.*?\]\(.*?\)/` : consume the
shortest run of non-newline characters up to `](`, returning the
remainder after it.  (Failure from an earlier position implies failure
from every later position on the same line, so no further backtracking
into the first `.*?` is needed.) -/
def lazyBracketParen : List Char → Option (List Char)
  | ']' :: '(' :: rest => some rest
  | '\n' :: _ => none
  | _ :: rest => lazyBracketParen rest
  | [] => none

/-- Lazy `.*?\)` : consume the shortest run of non-newline characters up
to `)`, returning the remainder after it. -/
def lazyCloseParen : List Char → Option (List Char)
  | ')' :: rest => some rest
  | '\n' :: _ => none
  | _ :: rest => lazyCloseParen rest
  | [] => none

/-- Global replace of `/!\[.*?\]\(.*?\)/g` by the empty string.  The fuel
argument only bounds the recursion depth; every step consumes at least
one character, so `length + 1` fuel never runs out. -/
def replaceImagesF : Nat → List Char → List Char
  | 0, cs => cs
  | _ + 1, [] => []
  | fuel + 1, '!' :: '[' :: rest =>
    (match lazyBracketParen rest with
     | some r1 =>
       match lazyCloseParen r1 with
       | some r2 => replaceImagesF fuel r2
       | none => '!' :: replaceImagesF fuel ('[' :: rest)
     | none => '!' :: replaceImagesF fuel ('[' :: rest))
  | fuel + 1, c :: rest => c :: replaceImagesF fuel rest

/-- `text.replace(/!\[.*?\]\(.*?\)/g, "")` (src/unnamed/part_000 line 152). -/
def replaceImages (cs : List Char) : List Char :=
  replaceImagesF (cs.length + 1) cs

/-- Try to match `/\[([^\]]+)\]\([^\)]+\)/` at the head of the input:
on success return the captured link text and the remainder after the
match.  The character classes exclude their closing bracket, so the
greedy `+` repetitions never backtrack. -/
def linkMatch (cs : List Char) : Option (List Char × List Char) :=
  match cs with
  | '[' :: rest =>
    let txt := rest.takeWhile (fun c => c ≠ ']')
    if txt.isEmpty then none
    else
      match rest.drop txt.length with
      | ']' :: '(' :: r2 =>
        let tgt := r2.takeWhile (fun c => c ≠ ')')
        if tgt.isEmpty then none
        else
          match r2.drop tgt.length with
          | ')' :: r3 => some (txt, r3)
          | _ => none
      | _ => none
  | _ => none

/-- Global replace of `/\[([^\]]+)\]\([^\)]+\)/g` by the captured text.
Fuel as in `replaceImagesF`. -/
def replaceLinksF : Nat → List Char → List Char
  | 0, cs => cs
  | _ + 1, [] => []
  | fuel + 1, c :: rest =>
    match linkMatch (c :: rest) with
    | some (txt, r3) => txt ++ replaceLinksF fuel r3
    | none => c :: replaceLinksF fuel rest

/-- `text.replace(/\[([^\]]+)\]\([^\)]+\)/g, "$1")` (src/unnamed/part_000
line 154). -/
def replaceLinks (cs : List Char) : List Char :=
  replaceLinksF (cs.length + 1) cs

/-- Member of the character class of `/[#*_`~]+/` (the fifth character is
the backtick). -/
def isMarkerChar (c : Char) : Bool :=
  c = '#' || c = '*' || c = '_' || c = Char.ofNat 96 || c = '~'

/-- `text.replace(/[#*_`~]+/g, "")` (src/unnamed/part_000 line 156):
replacing maximal marker runs by the empty string removes exactly the
marker characters. -/
def removeMarkers (cs : List Char) : List Char :=
  cs.filter (fun c => !isMarkerChar c)

/-- Replacement text for one newline run: runs of three or more newlines
become exactly two, shorter runs are kept as they are. -/
def newlineRun (n : Nat) : List Char :=
  if 3 ≤ n then ['\n', '\n'] else List.replicate n '\n'

/-- Single pass tracking the length of the pending newline run. -/
def collapseAux : Nat → List Char → List Char
  | n, [] => newlineRun n
  | n, '\n' :: rest => collapseAux (n + 1) rest
  | n, c :: rest => newlineRun n ++ c :: collapseAux 0 rest

/-- `text.replace(/\n{3,}/g, "\n\n")` (src/unnamed/part_000 line 158):
the regex matches every maximal run of at least three newlines. -/
def collapseNewlines (cs : List Char) : List Char :=
  collapseAux 0 cs

/-- `markdownToText` (src/unnamed/part_000 lines 149-160, src/src/worker.ts
lines 122-133): drop images, keep link text, strip marker characters,
collapse blank-line runs, then trim. -/
def markdownToText (content : String) : String :=
  String.mk (trimChars (collapseNewlines (removeMarkers
    (replaceLinks (replaceImages content.data)))))

/-- Exact-rational model of the `reduction_percent` arithmetic of the
`mistral_ocr_clean_markdown` handler (src/unnamed/part_000 lines
1629-1651): `Math.round(((1 - cleaned/original) * 100) * 10) / 10` when
the original length is positive, otherwise 0.  (`round` in Mathlib rounds
half upward, exactly as JavaScript `Math.round`.) -/
def reductionPercent (originalLength cleanedLength : Nat) : ℚ :=
  if 0 < originalLength then
    (round (((1 - (cleanedLength : ℚ) / (originalLength : ℚ)) * 100) * 10) : ℤ) / 10
  else 0

/-- Page-set invariant asserted by the spec for C2 (spec wording, for
comparison with the code): every member is an integer at least 1. -/
def specPageSetInvariant (pages : List JSNum) : Bool :=
  pages.all (fun x =>
    match x with
    | some n => decide (1 ≤ n)
    | none => false)

/-- `splitCharList` always yields at least one field. -/
theorem splitCharList_ne_nil (sep : Char) (cs : List Char) : splitCharList sep cs ≠ [] := by
  cases cs with
  | nil => simp [splitCharList]
  | cons c rest =>
    simp only [splitCharList]
    split
    · simp
    · split <;> simp

/-- Fields produced by `splitCharList` never contain the separator. -/
theorem not_mem_of_mem_splitCharList {sep : Char} {cs l : List Char}
    (h : l ∈ splitCharList sep cs) : sep ∉ l := by
  induction cs generalizing l with
  | nil =>
    simp only [splitCharList, List.mem_singleton] at h
    subst h
    simp
  | cons c rest ih =>
    simp only [splitCharList] at h
    by_cases hc : c = sep
    · rw [if_pos hc] at h
      rcases List.mem_cons.mp h with h1 | h1
      · subst h1; simp
      · exact ih h1
    · rw [if_neg hc] at h
      rcases hrec : splitCharList sep rest with _ | ⟨hd, tl⟩
      · exact absurd hrec (splitCharList_ne_nil sep rest)
      · rw [hrec] at h
        rcases List.mem_cons.mp h with h1 | h1
        · subst h1
          intro hmem
          rcases List.mem_cons.mp hmem with h2 | h2
          · exact hc h2.symm
          · exact ih (hrec ▸ List.mem_cons_self hd tl) h2
        · exact ih (hrec ▸ List.mem_cons_of_mem hd h1)

/-- Splitting a separator-free list yields that single field. -/
theorem splitCharList_of_not_mem {sep : Char} {l : List Char} (h : sep ∉ l) :
    splitCharList sep l = [l] := by
  induction l with
  | nil => rfl
  | cons c rest ih =>
    have hc : ¬ c = sep := by rintro rfl; exact h (List.mem_cons_self _ _)
    have hrest : sep ∉ rest := fun hh => h (List.mem_cons_of_mem c hh)
    simp only [splitCharList, if_neg hc, ih hrest]

/-- Peeling the first separator off a split. -/
theorem splitCharList_append_cons {sep : Char} {l : List Char} (rest : List Char)
    (h : sep ∉ l) :
    splitCharList sep (l ++ sep :: rest) = l :: splitCharList sep rest := by
  induction l with
  | nil => simp [splitCharList]
  | cons c l ih =>
    have hc : ¬ c = sep := by rintro rfl; exact h (List.mem_cons_self _ _)
    have hl : sep ∉ l := fun hh => h (List.mem_cons_of_mem c hh)
    simp only [List.cons_append, splitCharList, if_neg hc]
    rw [show List.append l (sep :: rest) = l ++ sep :: rest from rfl, ih hl]

/-- Unfolding `joinNl` on a cons with a non-empty tail. -/
theorem joinNl_cons_of_ne_nil {l : List Char} {ls : List (List Char)} (h : ls ≠ []) :
    joinNl (l :: ls) = l ++ '\n' :: joinNl ls := by
  cases ls with
  | nil => exact absurd rfl h
  | cons a as => rfl

/-- Joining the fields of a newline split restores the original list. -/
theorem joinNl_splitCharList (cs : List Char) : joinNl (splitCharList '\n' cs) = cs := by
  induction cs with
  | nil => rfl
  | cons c rest ih =>
    simp only [splitCharList]
    by_cases hc : c = '\n'
    · rw [if_pos hc, joinNl_cons_of_ne_nil (splitCharList_ne_nil _ _), ih, hc]
      rfl
    · rw [if_neg hc]
      rcases hrec : splitCharList '\n' rest with _ | ⟨hd, tl⟩
      · exact absurd hrec (splitCharList_ne_nil _ _)
      · rw [hrec] at ih
        cases tl with
        | nil =>
          simp only [joinNl] at ih ⊢
          rw [ih]
        | cons b bs =>
          rw [joinNl_cons_of_ne_nil (List.cons_ne_nil b bs)] at ih ⊢
          rw [List.cons_append, ih]

/-- Splitting the newline join of newline-free fields restores the fields. -/
theorem splitCharList_joinNl {ls : List (List Char)} (hne : ls ≠ [])
    (h : ∀ l ∈ ls, '\n' ∉ l) : splitCharList '\n' (joinNl ls) = ls := by
  induction ls with
  | nil => exact absurd rfl hne
  | cons l ls ih =>
    cases ls with
    | nil => exact splitCharList_of_not_mem (h l (List.mem_cons_self _ _))
    | cons a as =>
      rw [joinNl_cons_of_ne_nil (List.cons_ne_nil a as),
        splitCharList_append_cons _ (h l (List.mem_cons_self _ _)),
        ih (List.cons_ne_nil a as) (fun x hx => h x (List.mem_cons_of_mem l hx))]

/-- Dropping the head field never lengthens the join. -/
theorem joinNl_length_cons (l : List Char) (ls : List (List Char)) :
    (joinNl ls).length ≤ (joinNl (l :: ls)).length := by
  cases ls with
  | nil => simp [joinNl]
  | cons a as =>
    rw [joinNl_cons_of_ne_nil (List.cons_ne_nil a as)]
    simp only [List.length_append, List.length_cons]
    omega

/-- The join of a sublist of fields is no longer than the join of all fields. -/
theorem joinNl_length_le_of_sublist {ls₁ ls₂ : List (List Char)}
    (h : List.Sublist ls₁ ls₂) :
    (joinNl ls₁).length ≤ (joinNl ls₂).length := by
  induction h with
  | slnil => exact Nat.le_refl _
  | cons a _ ih => exact Nat.le_trans ih (joinNl_length_cons a _)
  | @cons₂ ls₁ ls₂ a h ih =>
    cases ls₁ with
    | nil =>
      cases ls₂ with
      | nil => exact Nat.le_refl _
      | cons b bs =>
        rw [joinNl_cons_of_ne_nil (List.cons_ne_nil b bs)]
        simp only [joinNl, List.length_append, List.length_cons]
        omega
    | cons c cs =>
      cases ls₂ with
      | nil => exact absurd (List.sublist_nil.mp h) (List.cons_ne_nil c cs)
      | cons b bs =>
        rw [joinNl_cons_of_ne_nil (List.cons_ne_nil c cs),
          joinNl_cons_of_ne_nil (List.cons_ne_nil b bs)]
        simp only [List.length_append, List.length_cons]
        omega

/-- Rebuilding the strings of a split-then-wrapped list of fields. -/
theorem map_data_map_mk (ls : List (List Char)) :
    (ls.map String.mk).map String.data = ls := by
  induction ls with
  | nil => rfl
  | cons a as ih =>
    simp only [List.map_cons]
    rw [ih]

/-- Wrapping the character data of strings back into strings. -/
theorem map_mk_map_data (ls : List String) :
    (ls.map String.data).map String.mk = ls := by
  induction ls with
  | nil => rfl
  | cons a as ih =>
    simp only [List.map_cons]
    rw [ih]

/-- Lines produced by `splitLines` contain no newline character. -/
theorem mem_splitLines_no_newline {s l : String} (h : l ∈ splitLines s) :
    '\n' ∉ l.data := by
  unfold splitLines at h
  rcases List.mem_map.mp h with ⟨cs, hcs, rfl⟩
  exact not_mem_of_mem_splitCharList hcs

/-- Splitting the join of a non-empty list of newline-free lines restores
the lines. -/
theorem splitLines_joinLines {ls : List String} (hne : ls ≠ [])
    (h : ∀ l ∈ ls, '\n' ∉ l.data) : splitLines (joinLines ls) = ls := by
  unfold splitLines joinLines
  have hne2 : ls.map String.data ≠ [] := by
    intro hh
    exact hne (List.map_eq_nil_iff.mp hh)
  have h2 : ∀ l ∈ ls.map String.data, '\n' ∉ l := by
    intro l hl
    rcases List.mem_map.mp hl with ⟨s, hs, rfl⟩
    exact h s hs
  rw [show (String.mk (joinNl (ls.map String.data))).data =
      joinNl (ls.map String.data) from rfl,
    splitCharList_joinNl hne2 h2, map_mk_map_data]

/-- The keep/drop decision depends only on the trimmed form of the line. -/
theorem keepLine_eq_of_trim_eq {lines : List String} {l₁ l₂ : String}
    (h : jsTrim l₁ = jsTrim l₂) : keepLine lines l₁ = keepLine lines l₂ := by
  simp only [keepLine, h]

/-- When every line of a given trimmed form is kept, cleaning does not
change that form's occurrence count. -/
theorem lineCount_cleanLines {lines : List String} {t : String}
    (hkeep : ∀ l : String, jsTrim l = t → keepLine lines l = true) :
    lineCount (cleanLines lines) t = lineCount lines t := by
  have h : (lines.filter (keepLine lines)).filter (fun l => jsTrim l == t) =
      lines.filter (fun l => jsTrim l == t) := by
    rw [List.filter_filter]
    apply List.filter_congr
    intro x _
    by_cases hq : jsTrim x = t
    · simp [beq_iff_eq, hq, hkeep x hq]
    · simp [beq_iff_eq, hq]
  unfold lineCount cleanLines
  rw [h]

/-- C3: cleaning is idempotent — applying `cleanMarkdownContent` to the
cleaned-content component of `cleanMarkdownContent content` yields that
same cleaned content again.  (A surviving line's trimmed form keeps its
exact occurrence count, because removal always deletes all occurrences of
a form at once, so no new form becomes repetitive on a second pass.) -/
theorem cleanMarkdownContent_idempotent (content : String) :
    (cleanMarkdownContent (cleanMarkdownContent content).1).1 =
      (cleanMarkdownContent content).1 := by
  by_cases hcl : cleanLines (splitLines content) = []
  · show (cleanMarkdownContent (joinLines (cleanLines (splitLines content)))).1 =
      joinLines (cleanLines (splitLines content))
    rw [hcl]
    rfl
  · have hnl : ∀ l ∈ cleanLines (splitLines content), '\n' ∉ l.data := by
      intro l hl
      exact mem_splitLines_no_newline (List.mem_of_mem_filter hl)
    have hsplit : splitLines (joinLines (cleanLines (splitLines content))) =
        cleanLines (splitLines content) := splitLines_joinLines hcl hnl
    show joinLines (cleanLines (splitLines (joinLines (cleanLines (splitLines content))))) =
      joinLines (cleanLines (splitLines content))
    rw [hsplit]
    have hfix : cleanLines (cleanLines (splitLines content)) =
        cleanLines (splitLines content) := by
      apply List.filter_eq_self.mpr
      intro l hl
      have hmem := List.mem_filter.mp hl
      by_cases ht : jsTrim l = ""
      · simp [keepLine, beq_iff_eq, ht]
      · have hcount : lineCount (cleanLines (splitLines content)) (jsTrim l) =
            lineCount (splitLines content) (jsTrim l) := by
          apply lineCount_cleanLines
          intro l2 hl2
          rw [keepLine_eq_of_trim_eq hl2]
          exact hmem.2
        have hk := hmem.2
        simp only [keepLine, isRepetitive] at hk ⊢
        rw [hcount]
        exact hk
    show joinLines (cleanLines (cleanLines (splitLines content))) = _
    rw [hfix]

/-- C10: the cleaned content is never longer than the input, so the
`reduction_percent` reported by the `mistral_ocr_clean_markdown` handler
is never negative. -/
theorem cleanMarkdownContent_reduces (content : String) :
    (cleanMarkdownContent content).1.length ≤ content.length ∧
      0 ≤ reductionPercent content.length (cleanMarkdownContent content).1.length := by
  have hlen : (cleanMarkdownContent content).1.length ≤ content.length := by
    show (joinLines (cleanLines (splitLines content))).length ≤ content.length
    have hsub : List.Sublist ((cleanLines (splitLines content)).map String.data)
        ((splitLines content).map String.data) :=
      (List.filter_sublist _).map String.data
    have h1 : (joinLines (cleanLines (splitLines content))).length =
        (joinNl ((cleanLines (splitLines content)).map String.data)).length := rfl
    have h2 : content.length = (joinNl ((splitLines content).map String.data)).length := by
      show content.data.length = _
      unfold splitLines
      rw [map_data_map_mk, joinNl_splitCharList]
    rw [h1, h2]
    exact joinNl_length_le_of_sublist hsub
  refine ⟨hlen, ?_⟩
  unfold reductionPercent
  split
  · next hpos =>
    apply div_nonneg _ (by norm_num)
    have ho : (0:ℚ) < (content.length : ℚ) := by exact_mod_cast hpos
    have hco : ((cleanMarkdownContent content).1.length : ℚ) / (content.length : ℚ) ≤ 1 :=
      (div_le_one ho).mpr (by exact_mod_cast hlen)
    have hr : (0:ℤ) ≤ round (((1 - ((cleanMarkdownContent content).1.length : ℚ) /
        (content.length : ℚ)) * 100) * 10) := by
      rw [round_eq, Int.le_floor]
      push_cast
      nlinarith
    exact_mod_cast hr
  · norm_num

/-- C4: a line whose trimmed form occurs exactly twice is never removed
(its occurrence count is preserved); a non-protected, non-empty line whose
trimmed form occurs at least three times is removed everywhere; and the
six-line header document cleans to `p1`, `p2`, `Page 3` in order. -/
theorem cleanMarkdownContent_threshold :
    (∀ (lines : List String) (l : String), lineCount lines (jsTrim l) = 2 →
        (cleanLines lines).count l = lines.count l) ∧
    (∀ (lines : List String) (l : String), 3 ≤ lineCount lines (jsTrim l) →
        isProtected (jsTrim l) = false → ¬ jsTrim l = "" → l ∉ cleanLines lines) ∧
    cleanMarkdownContent "Header\np1\nHeader\np2\nHeader\nPage 3" =
      ("p1\np2\nPage 3", "lightweight inline deduplication") := by
  refine ⟨?_, ?_, by rfl⟩
  · intro lines l hc
    apply List.count_filter
    simp [keepLine, isRepetitive, hc]
  · intro lines l h3 hprot hne hmem
    have hk := (List.mem_filter.mp hmem).2
    simp [keepLine, isRepetitive, beq_iff_eq, hprot, h3, hne] at hk

/-- Witness for C4 at concrete documents: a twice-repeated line survives
with its count intact, and a thrice-repeated unprotected line is gone. -/
theorem cleanMarkdownContent_threshold_witness :
    (cleanLines ["x", "x"]).count "x" = ["x", "x"].count "x" ∧
      "b" ∉ cleanLines ["b", "b", "b"] :=
  ⟨cleanMarkdownContent_threshold.1 ["x", "x"] "x" (by rfl),
   cleanMarkdownContent_threshold.2.1 ["b", "b", "b"] "b" (by decide) (by rfl) (by decide)⟩

/-- C5: a line whose trimmed form matches a protected pattern is never
removed, regardless of its occurrence count, and the four exemplar lines
`Page 7`, `[12]`, `something doi:10.1/x`, `42` are all protected. -/
theorem cleanMarkdownContent_protected :
    (∀ (lines : List String) (l : String), isProtected (jsTrim l) = true →
        (cleanLines lines).count l = lines.count l) ∧
    isProtected "Page 7" = true ∧ isProtected "[12]" = true ∧
    isProtected "something doi:10.1/x" = true ∧ isProtected "42" = true := by
  refine ⟨?_, by rfl, by rfl, by rfl, by rfl⟩
  intro lines l hprot
  apply List.count_filter
  simp [keepLine, isRepetitive, hprot]

/-- Witness for C5: a page marker repeated four times survives cleaning
with its count intact. -/
theorem cleanMarkdownContent_protected_witness :
    (cleanLines ["Page 7", "Page 7", "Page 7", "Page 7"]).count "Page 7" =
      ["Page 7", "Page 7", "Page 7", "Page 7"].count "Page 7" :=
  cleanMarkdownContent_protected.1 ["Page 7", "Page 7", "Page 7", "Page 7"] "Page 7" (by rfl)

/-- C8 (amended): for `cleanMarkdownContent` the surviving line sequence
is a sublist of the input line sequence — lines are only dropped, never
reordered — and every empty or non-repetitive line passes through
byte-unchanged with its occurrence count (hence its original relative
position) intact.  The `markdownToText` half of the original claim is
refuted separately: that function rewrites line contents. -/
theorem cleanMarkdownContent_order :
    (∀ content : String,
        List.Sublist (cleanLines (splitLines content)) (splitLines content)) ∧
    (∀ (content : String) (l : String),
        jsTrim l = "" ∨ isRepetitive (splitLines content) (jsTrim l) = false →
        (cleanLines (splitLines content)).count l = (splitLines content).count l) := by
  refine ⟨fun content => List.filter_sublist _, ?_⟩
  intro content l h
  apply List.count_filter
  rcases h with h | h
  · simp [keepLine, beq_iff_eq, h]
  · simp [keepLine, h]

/-- Witness for C8 at a concrete document: the surviving lines of
`a\nb\na\na` form a sublist, and the non-repetitive line `b` keeps its count. -/
theorem cleanMarkdownContent_order_witness :
    List.Sublist (cleanLines (splitLines "a\nb\na\na")) (splitLines "a\nb\na\na") ∧
      (cleanLines (splitLines "a\nb\na\na")).count "b" =
        (splitLines "a\nb\na\na").count "b" :=
  ⟨cleanMarkdownContent_order.1 "a\nb\na\na",
   cleanMarkdownContent_order.2 "a\nb\na\na" "b" (Or.inr (by rfl))⟩

/-- Counterexample for C8: `markdownToText` rewrites line contents (here
it strips the `# ` heading marker), so its output line sequence is not a
sublist of its input line sequence. -/
theorem markdownToText_lines_not_sublist :
    ¬ List.Sublist (splitLines (markdownToText "# Title\nbody"))
        (splitLines "# Title\nbody") := by
  intro h
  have hm : "Title" ∈ splitLines (markdownToText "# Title\nbody") := by
    rw [show splitLines (markdownToText "# Title\nbody") = ["Title", "body"] from rfl]
    exact List.mem_cons_self _ _
  have h2 := h.subset hm
  rw [show splitLines "# Title\nbody" = ["# Title", "body"] from rfl] at h2
  revert h2
  decide

/-- C9 (amended): a two-part range token that does not start with `-`,
whose part after the `-` is not a numeral (`parseInt` yields `NaN`), and
whose part before the `-` does not parse below 1, is neither rejected nor
does it contribute pages: every comparison with `NaN` is false, so the
positivity and order checks pass and the range loop body never runs.  In
particular `parsePageSpec "5-"` and `parsePageSpec "1-x"` return the
empty set.  (The amendment excludes tokens such as `0-x`, where the
start-of-range positivity check still fires.) -/
theorem addPart_nan_range :
    (∀ (pages : List JSNum) (t p0 p1 : String),
        (jsTrim t).data.contains '-' = true →
        startsWithDash (jsTrim t) = false →
        (splitCharList '-' (jsTrim t).data).map String.mk = [p0, p1] →
        parseIntJS (jsTrim p1) = none →
        jsLt (parseIntJS (jsTrim p0)) (some 1) = false →
        addPart pages t = Except.ok pages) ∧
    parsePageSpec "5-" = Except.ok [] ∧ parsePageSpec "1-x" = Except.ok [] := by
  refine ⟨?_, by rfl, by rfl⟩
  intro pages t p0 p1 hdash hstart hsplit hp1 hp0
  unfold addPart
  rw [if_pos hdash, if_neg (by rw [hstart]; exact Bool.false_ne_true), hsplit]
  dsimp only
  rw [hp1, hp0]
  have hlt : jsLt none (some 1) = false := rfl
  rw [hlt]
  rcases h0 : parseIntJS (jsTrim p0) with _ | n
  · rfl
  · rfl

/-- Witness for C9: the general lemma applied to the token `5-`. -/
theorem addPart_nan_range_witness : addPart [] "5-" = Except.ok [] :=
  addPart_nan_range.1 [] "5-" "5" "" (by rfl) (by rfl) (by rfl) (by rfl) (by rfl)

/-- Counterexample for C9: for the range token `0-x` the part after `-`
is not a numeral, yet `parsePageSpec` raises, because the start-of-range
positivity check fires on `0` before the `NaN` end is reached. -/
theorem parsePageSpec_range_start_zero_error :
    parsePageSpec "0-x" =
      Except.error "Page numbers must be positive (got 0-NaN)" := by rfl

/-- C6: ranges are inclusive, tokens are trimmed, and duplicates collapse
(the returned set is in insertion order). -/
theorem parsePageSpec_examples :
    parsePageSpec "3-5" = Except.ok [some 3, some 4, some 5] ∧
    parsePageSpec "5-5" = Except.ok [some 5] ∧
    parsePageSpec "1,3,5-7" = Except.ok [some 1, some 3, some 5, some 6, some 7] ∧
    parsePageSpec "1-3,2,4" = Except.ok [some 1, some 2, some 3, some 4] ∧
    parsePageSpec " 1 , 5 - 10 " =
      Except.ok [some 1, some 5, some 6, some 7, some 8, some 9, some 10] :=
  ⟨rfl, rfl, rfl, rfl, rfl⟩

/-- C7: the image embed is dropped, the link keeps only its text, and the
heading and emphasis markers are stripped. -/
theorem markdownToText_example :
    markdownToText "# Title\n\n![alt](img.png)\n[link](http://x)\n**bold**" =
      "Title\n\nlink\nbold" := rfl

/-- C1 (code bug evaluation): `-5`, `5-3`, `0` and `1-2-3` are rejected
exactly as the spec demands, but an empty or non-numeric token parses to
`NaN`, which compares false against 1, so `1,abc` and `1,,3` are accepted
with `NaN` silently added to the page set instead of failing. -/
theorem parsePageSpec_rejection :
    parsePageSpec "-5" = Except.error "Page numbers must be positive (got \x27-5\x27)" ∧
    parsePageSpec "5-3" = Except.error "Invalid page range: 5-3 (start must be <= end)" ∧
    parsePageSpec "0" = Except.error "Page numbers must be positive (got 0)" ∧
    parsePageSpec "1-2-3" =
      Except.error "Invalid page range format: \x271-2-3\x27 (expected format: \x2711-20\x27)" ∧
    parsePageSpec "1,abc" = Except.ok [some 1, none] ∧
    parsePageSpec "1,,3" = Except.ok [some 1, none, some 3] :=
  ⟨rfl, rfl, rfl, rfl, rfl, rfl⟩

/-- C2 (code bug evaluation): `parsePageSpec "abc"` returns normally, and
its returned set contains `NaN`, violating the spec's invariant that
every member is an integer at least 1. -/
theorem parsePageSpec_nan_member :
    parsePageSpec "abc" = Except.ok [none] ∧ specPageSetInvariant [none] = false :=
  ⟨rfl, rfl⟩

end MistralOcr
